import Mathlib

/-!
Shallow embedding of src/simple_nat.cpp (SimpleNAT): a NAT rule store with
textual validation and a three-candidate wildcard lookup.

Strings are modelled as `List Char`.  C++ executions that throw an uncaught
exception (std::stoi on an empty or over-INT_MAX digit string) or commit
undefined behaviour (an out-of-bounds vector access) are embedded with an
`Option` result, where `none` marks the aborting execution and `some`
carries the value the call actually returns.
-/

namespace SimpleNAT

/-- Output status of the store operations (enum Status in the source:
INVALID, OK, NO_MATCH). -/
inductive Status where
  | INVALID
  | OK
  | NO_MATCH
deriving DecidableEq

/-- A C++ std::string, modelled as its character list. -/
abbrev Str := List Char

/-- Embeds NATStore::parse.  The source repeatedly finds the delimiter,
pushes the prefix, erases through the delimiter, and finally pushes the
remainder; a string with no delimiter occurrence yields a one-element
vector.  The source takes the delimiter as a string, but every call site
passes a single character (",", ":", or "."), so the embedding takes a
`Char`. -/
def parse (delim : Char) : Str → List Str
  | [] => [[]]
  | c :: rest =>
    if c = delim then
      [] :: parse delim rest
    else
      match parse delim rest with
      | [] => [[c]]
      | p :: ps => (c :: p) :: ps

/-- Embeds NATStore::is_pint: input.find_first_not_of("0123456789") ==
npos, i.e. every character is a decimal digit (vacuously true on the
empty string). -/
def is_pint (input : Str) : Bool :=
  input.all Char.isDigit

/-- Numeric value of a digit-only string (0 on the empty string). -/
def digitsToNat (s : Str) : Nat :=
  s.foldl (fun n c => 10 * n + (c.toNat - 48)) 0

/-- Models std::stoi on the only inputs the source feeds it: strings that
already passed is_pint, hence digit-only.  stoi throws
std::invalid_argument on the empty string and std::out_of_range when the
value exceeds INT_MAX = 2147483647 (32-bit int); the source never catches
either, so both are modelled as `none`. -/
def stoi (s : Str) : Option Int :=
  if s = [] then none
  else if 2147483647 < digitsToNat s then none
  else some ((digitsToNat s : Int))

/-- Embeds NATStore::is_port. -/
def is_port (port : Str) : Option Bool :=
  if port = ['*'] then some true
  else if is_pint port = false then some false
  else
    match stoi port with
    | none => none
    | some p => if 65535 < p ∨ p < 0 then some false else some true

/-- The octet loop of NATStore::is_ip over the dot-split tokens. -/
def is_ip_loop : List Str → Option Bool
  | [] => some true
  | t :: ts =>
    if is_pint t = false then some false
    else
      match stoi t with
      | none => none
      | some p => if 255 < p ∨ p < 0 then some false else is_ip_loop ts

/-- Embeds NATStore::is_ip. -/
def is_ip (ip : Str) : Option Bool :=
  if ip = ['*'] then some true
  else
    let parsed := parse '.' ip
    if parsed.length ≠ 4 then some false
    else is_ip_loop parsed

/-- Embeds NATStore::is_valid. -/
def is_valid (pair : Str) (is_value : Bool) : Option Bool :=
  match parse ':' pair with
  | [p0, p1] =>
    if is_value = true ∧ (p0 = ['*'] ∨ p1 = ['*']) then some false
    else if p0 = ['*'] ∧ p1 = ['*'] then some false
    else
      match is_ip p0 with
      | none => none
      | some false => some false
      | some true => is_port p1
  | _ => some false

/-- Embeds NATStore::parse_entry: split on ',' and validate both sides,
returning the empty vector on any validation failure. -/
def parse_entry (entry : Str) : Option (List Str) :=
  match parse ',' entry with
  | [p0, p1] =>
    match is_valid p0 false with
    | none => none
    | some false => some []
    | some true =>
      match is_valid p1 true with
      | none => none
      | some false => some []
      | some true => some [p0, p1]
  | _ => some []

/-- The NAT table: unordered_map<string,string>, modelled as an
association list with unique keys.  Lookup (find) and keyed overwrite are
the only operations the source performs, so iteration order never
matters. -/
abbrev Dictionary := List (Str × Str)

/-- unordered_map::find specialised to this table. -/
def dict_find : Dictionary → Str → Option Str
  | [], _ => none
  | (k, v) :: rest, key => if k = key then some v else dict_find rest key

/-- Embeds void NATStore::save(string key, string value):
dictionary[key] = value, overwriting any existing binding for the key. -/
def save_kv : Dictionary → Str → Str → Dictionary
  | [], key, value => [(key, value)]
  | (k, v) :: rest, key, value =>
    if k = key then (k, value) :: rest
    else (k, v) :: save_kv rest key value

/-- Embeds Status NATStore::save(string entry).  The result pairs the
returned Status with the table after the call; `none` marks an execution
that throws inside parse_entry (the singleton case would read parsed[1]
out of bounds, but parse_entry never produces it). -/
def save (dict : Dictionary) (entry : Str) : Option (Status × Dictionary) :=
  match parse_entry entry with
  | none => none
  | some [] => some (Status.INVALID, dict)
  | some [_] => none
  | some (p0 :: p1 :: _) => some (Status.OK, save_kv dict p0 p1)

/-- Embeds Status NATStore::translate(string key, string& value).  The
result pairs the Status with the out-parameter (set only on OK); `none`
marks an execution that reads parsed[1] out of bounds (a query with no
':' splits into a single field) or throws inside is_ip / is_port.  The
exact-key probe uses the whole original text, the wildcard probes use the
first two ':' fields, exactly as in the source.  The table is never
mutated: every operator[] read is guarded by find. -/
def translate (dict : Dictionary) (key : Str) : Option (Status × Option Str) :=
  match parse ':' key with
  | p0 :: p1 :: _ =>
    match is_ip p0 with
    | none => none
    | some false => some (Status.INVALID, none)
    | some true =>
      match is_port p1 with
      | none => none
      | some false => some (Status.INVALID, none)
      | some true =>
        if p0 = ['*'] ∨ p1 = ['*'] then some (Status.INVALID, none)
        else
          match dict_find dict key with
          | some v => some (Status.OK, some v)
          | none =>
            match dict_find dict (p0 ++ [':', '*']) with
            | some v => some (Status.OK, some v)
            | none =>
              match dict_find dict ('*' :: ':' :: p1) with
              | some v => some (Status.OK, some v)
              | none => some (Status.NO_MATCH, none)
  | _ => none

/-- Modelled from the spec (section 4.3): lookup tries, in order, the
exact key address:port, then address:*, then *:port, returns the stored
destination of the first candidate present, and NO_MATCH if none is. -/
def lookupSpec (dict : Dictionary) (a p : Str) : Status × Option Str :=
  match dict_find dict (a ++ ':' :: p) with
  | some v => (Status.OK, some v)
  | none =>
    match dict_find dict (a ++ [':', '*']) with
    | some v => (Status.OK, some v)
    | none =>
      match dict_find dict ('*' :: ':' :: p) with
      | some v => (Status.OK, some v)
      | none => (Status.NO_MATCH, none)

/-- Tables reachable from the empty table by the store's calls.
Translate never mutates the table, so save (DefineRule) steps are the
only ones that change it; an execution in which save throws terminates
the process and yields no table. -/
inductive Reachable : Dictionary → Prop where
  | base : Reachable []
  | step : ∀ {d : Dictionary} {e : Str} {st : Status} {d' : Dictionary},
      Reachable d → save d e = some (st, d') → Reachable d'

/-- Table invariant: every stored key validates as a non-fully-wildcard
endpoint and every stored value as a fully concrete endpoint. -/
def Inv (d : Dictionary) : Prop :=
  ∀ k v, dict_find d k = some v →
    is_valid k false = some true ∧ is_valid v true = some true

/-- parse always returns at least one field. -/
theorem parse_ne_nil (delim : Char) (s : Str) : parse delim s ≠ [] := by
  induction s with
  | nil => simp [parse]
  | cons c rest ih =>
    by_cases hc : c = delim
    · simp [parse, hc]
    · simp only [parse, if_neg hc]
      cases h : parse delim rest <;> simp

/-- A one-field split means the delimiter does not occur and the field is
the whole string. -/
theorem parse_singleton {delim : Char} :
    ∀ {s x : Str}, parse delim s = [x] → s = x := by
  intro s
  induction s with
  | nil =>
    intro x h
    simp [parse] at h
    simp [h]
  | cons c rest ih =>
    intro x h
    by_cases hc : c = delim
    · rw [parse, if_pos hc] at h
      obtain ⟨-, h2⟩ := List.cons_eq_cons.mp h
      exact absurd h2 (parse_ne_nil delim rest)
    · rw [parse, if_neg hc] at h
      cases hrest : parse delim rest with
      | nil => exact absurd hrest (parse_ne_nil delim rest)
      | cons p ps =>
        rw [hrest] at h
        obtain ⟨h1, h2⟩ := List.cons_eq_cons.mp h
        have : rest = p := ih (by rw [hrest, h2])
        rw [← h1, this]

/-- A two-field split reconstructs the string as field, delimiter,
field. -/
theorem parse_pair {delim : Char} :
    ∀ {s a b : Str}, parse delim s = [a, b] → s = a ++ delim :: b := by
  intro s
  induction s with
  | nil =>
    intro a b h
    simp [parse] at h
  | cons c rest ih =>
    intro a b h
    by_cases hc : c = delim
    · rw [parse, if_pos hc] at h
      obtain ⟨h1, h2⟩ := List.cons_eq_cons.mp h
      have : rest = b := parse_singleton h2
      rw [← h1, this, hc]
      rfl
    · rw [parse, if_neg hc] at h
      cases hrest : parse delim rest with
      | nil => exact absurd hrest (parse_ne_nil delim rest)
      | cons p ps =>
        rw [hrest] at h
        obtain ⟨h1, h2⟩ := List.cons_eq_cons.mp h
        have : rest = p ++ delim :: b := ih (by rw [hrest, h2])
        rw [← h1, this]
        rfl

/-- Overwriting lookup law for the table. -/
theorem dict_find_save_kv (d : Dictionary) (key value x : Str) :
    dict_find (save_kv d key value) x =
      if key = x then some value else dict_find d x := by
  induction d with
  | nil =>
    simp [save_kv, dict_find]
  | cons kv rest ih =>
    obtain ⟨k, v⟩ := kv
    by_cases hk : k = key
    · rw [save_kv, if_pos hk]
      by_cases hx : k = x
      · rw [dict_find, if_pos hx, ← hx, if_pos hk.symm]
      · rw [dict_find, if_neg hx, dict_find, if_neg hx]
        rw [if_neg (by rw [← hk]; exact hx)]
    · rw [save_kv, if_neg hk]
      by_cases hx : k = x
      · rw [dict_find, if_pos hx]
        rw [if_neg (by rw [← hx]; exact fun h => hk h.symm)]
        rw [dict_find, if_pos hx]
      · rw [dict_find, if_neg hx, ih, dict_find, if_neg hx]

/-- What a successful is_valid tells us about the two fields. -/
theorem is_valid_true_elim {s : Str} {b : Bool} (h : is_valid s b = some true) :
    ∃ a p, parse ':' s = [a, p] ∧ is_ip a = some true ∧ is_port p = some true ∧
      ¬(a = ['*'] ∧ p = ['*']) ∧ (b = true → a ≠ ['*'] ∧ p ≠ ['*']) := by
  unfold is_valid at h
  split at h
  · rename_i p0 p1 hps
    split at h
    · simp at h
    · rename_i h1
      split at h
      · simp at h
      · rename_i h2
        split at h
        · simp at h
        · simp at h
        · rename_i hip
          refine ⟨p0, p1, hps, hip, h, h2, ?_⟩
          intro hb
          constructor
          · intro h0
            exact h1 ⟨hb, Or.inl h0⟩
          · intro h0
            exact h1 ⟨hb, Or.inr h0⟩
  · simp at h

/-- What a successful parse_entry tells us about the two endpoints. -/
theorem parse_entry_pair {e : Str} {s v : Str} (h : parse_entry e = some [s, v]) :
    is_valid s false = some true ∧ is_valid v true = some true ∧
      parse ',' e = [s, v] := by
  unfold parse_entry at h
  split at h
  · rename_i p0 p1 hps
    split at h
    · simp at h
    · simp at h
    · rename_i h0
      split at h
      · simp at h
      · simp at h
      · rename_i h1
        simp only [Option.some.injEq, List.cons_eq_cons, and_true] at h
        obtain ⟨hs, hv⟩ := h
        subst hs
        subst hv
        exact ⟨h0, h1, hps⟩
  · simp at h

/-- save on an entry that parse_entry accepts stores the pair and
returns OK. -/
theorem save_eq_of_parse_entry {dct : Dictionary} {e s v : Str}
    (h : parse_entry e = some [s, v]) :
    save dct e = some (Status.OK, save_kv dct s v) := by
  unfold save
  rw [h]

/-- On a valid fully concrete query, translate computes exactly the
three-candidate lookup of the spec. -/
theorem translate_eq_lookupSpec {dct : Dictionary} {q a p : Str}
    (hq : parse ':' q = [a, p]) (hip : is_ip a = some true)
    (hpt : is_port p = some true) (ha : a ≠ ['*']) (hp : p ≠ ['*']) :
    translate dct q = some (lookupSpec dct a p) := by
  have hq2 : q = a ++ ':' :: p := parse_pair hq
  unfold translate
  rw [hq]
  dsimp only
  rw [hip]
  dsimp only
  rw [hpt]
  dsimp only
  rw [if_neg (by simp [ha, hp])]
  rw [hq2]
  unfold lookupSpec
  cases h1 : dict_find dct (a ++ ':' :: p) with
  | some v => simp
  | none =>
    dsimp only
    cases h2 : dict_find dct (a ++ [':', '*']) with
    | some v => simp
    | none =>
      dsimp only
      cases h3 : dict_find dct ('*' :: ':' :: p) with
      | some v => simp
      | none => simp

/-- parse_entry returns either the empty vector or the two validated
endpoints. -/
theorem parse_entry_cases {e : Str} {l : List Str} (h : parse_entry e = some l) :
    l = [] ∨ ∃ s v, l = [s, v] ∧ is_valid s false = some true ∧
      is_valid v true = some true := by
  unfold parse_entry at h
  split at h
  · rename_i p0 p1 hps
    split at h
    · exact Option.noConfusion h
    · left
      exact (Option.some.inj h).symm
    · rename_i h0
      split at h
      · exact Option.noConfusion h
      · left
        exact (Option.some.inj h).symm
      · rename_i h1
        right
        exact ⟨p0, p1, (Option.some.inj h).symm, h0, h1⟩
  · left
    exact (Option.some.inj h).symm

/-- The two possible successful outcomes of save: INVALID with the table
unchanged, or OK with exactly the validated pair inserted. -/
theorem save_cases {dct : Dictionary} {e : Str} {st : Status} {d' : Dictionary}
    (h : save dct e = some (st, d')) :
    (st = Status.INVALID ∧ d' = dct ∧ parse_entry e = some []) ∨
    (st = Status.OK ∧ ∃ s v, parse_entry e = some [s, v] ∧ d' = save_kv dct s v) := by
  unfold save at h
  cases hpe : parse_entry e with
  | none =>
    rw [hpe] at h
    exact Option.noConfusion h
  | some l =>
    rw [hpe] at h
    cases l with
    | nil =>
      simp only [Option.some.injEq, Prod.mk.injEq] at h
      obtain ⟨h1, h2⟩ := h
      exact Or.inl ⟨h1.symm, h2.symm, rfl⟩
    | cons p0 tl =>
      cases tl with
      | nil => exact Option.noConfusion h
      | cons p1 tl2 =>
        simp only [Option.some.injEq, Prod.mk.injEq] at h
        obtain ⟨h1, h2⟩ := h
        rcases parse_entry_cases hpe with h3 | ⟨s, v, he, -, -⟩
        · exact absurd h3 (by simp)
        · obtain ⟨h4, h5⟩ := List.cons_eq_cons.mp he
          obtain ⟨h6, h7⟩ := List.cons_eq_cons.mp h5
          subst h4
          subst h6
          subst h7
          exact Or.inr ⟨h1.symm, p0, p1, rfl, h2.symm⟩

/-- An INVALID outcome of save leaves the table untouched. -/
theorem save_invalid_unchanged {dct : Dictionary} {e : Str} {d' : Dictionary}
    (h : save dct e = some (Status.INVALID, d')) : d' = dct := by
  rcases save_cases h with ⟨-, h2, -⟩ | ⟨h1, -⟩
  · exact h2
  · exact absurd h1 (by simp)

/-- Inserting a validated pair preserves the table invariant. -/
theorem Inv_save_kv {d : Dictionary} {k v : Str} (hInv : Inv d)
    (hk : is_valid k false = some true) (hv : is_valid v true = some true) :
    Inv (save_kv d k v) := by
  intro x y hxy
  rw [dict_find_save_kv] at hxy
  by_cases hx : k = x
  · rw [if_pos hx] at hxy
    have hy : v = y := Option.some.inj hxy
    subst hx
    subst hy
    exact ⟨hk, hv⟩
  · rw [if_neg hx] at hxy
    exact hInv x y hxy

/-- Every reachable table satisfies the invariant. -/
theorem reachable_inv : ∀ d : Dictionary, Reachable d → Inv d := by
  intro d hd
  induction hd with
  | base =>
    intro k v h
    exact Option.noConfusion h
  | step hr hsave ih =>
    rcases save_cases hsave with ⟨-, rfl, -⟩ | ⟨-, s, v, hpe, rfl⟩
    · exact ih
    · obtain ⟨hk, hv, -⟩ := parse_entry_pair hpe
      exact Inv_save_kv ih hk hv

/-- Acceptance characterisation of the port validator: the wildcard, or a
nonempty digit-only string of value at most 65535.  Executions that throw
inside std::stoi return `none`, so they are accepted by neither side. -/
theorem is_port_accepts_iff (s : Str) :
    is_port s = some true ↔
      s = ['*'] ∨ (s ≠ [] ∧ (∀ c ∈ s, c.isDigit = true) ∧ digitsToNat s ≤ 65535) := by
  unfold is_port
  by_cases hw : s = ['*']
  · simp [hw]
  · rw [if_neg hw]
    by_cases hd : is_pint s = false
    · rw [if_pos hd]
      simp only [hw, false_or]
      constructor
      · intro h
        exact absurd h (by simp)
      · rintro ⟨-, hdig, -⟩
        have hp : is_pint s = true := List.all_eq_true.mpr hdig
        rw [hp] at hd
        exact absurd hd (by simp)
    · rw [if_neg hd]
      have hp : is_pint s = true := by
        revert hd
        cases is_pint s <;> simp
      have hpint : ∀ c ∈ s, c.isDigit = true := List.all_eq_true.mp hp
      unfold stoi
      by_cases hnil : s = []
      · rw [if_pos hnil]
        simp [hw, hnil]
      · rw [if_neg hnil]
        by_cases hbig : 2147483647 < digitsToNat s
        · rw [if_pos hbig]
          simp only [hw, false_or]
          constructor
          · intro h
            exact Option.noConfusion h
          · rintro ⟨-, -, hle⟩
            omega
        · rw [if_neg hbig]
          dsimp only
          by_cases hle : 65535 < (digitsToNat s : Int) ∨ (digitsToNat s : Int) < 0
          · rw [if_pos hle]
            simp only [hw, false_or]
            constructor
            · intro h
              exact absurd h (by simp)
            · rintro ⟨-, -, h65⟩
              rcases hle with hl | hl <;> omega
          · rw [if_neg hle]
            push_neg at hle
            simp only [hw, false_or]
            constructor
            · rintro -
              exact ⟨hnil, hpint, by omega⟩
            · rintro -
              trivial

/-- Acceptance characterisation of the octet loop of is_ip. -/
theorem is_ip_loop_true_iff (l : List Str) :
    is_ip_loop l = some true ↔
      ∀ t ∈ l, t ≠ [] ∧ (∀ c ∈ t, c.isDigit = true) ∧ digitsToNat t ≤ 255 := by
  induction l with
  | nil => simp [is_ip_loop]
  | cons t ts ih =>
    unfold is_ip_loop
    by_cases hd : is_pint t = false
    · rw [if_pos hd]
      constructor
      · intro h
        exact absurd h (by simp)
      · intro h
        obtain ⟨-, hdig, -⟩ := h t (List.mem_cons_self t ts)
        have hp : is_pint t = true := List.all_eq_true.mpr hdig
        rw [hp] at hd
        exact absurd hd (by simp)
    · rw [if_neg hd]
      have hp : is_pint t = true := by
        revert hd
        cases is_pint t <;> simp
      have hpint : ∀ c ∈ t, c.isDigit = true := List.all_eq_true.mp hp
      unfold stoi
      by_cases hnil : t = []
      · rw [if_pos hnil]
        constructor
        · intro h
          exact Option.noConfusion h
        · intro h
          obtain ⟨hne, -, -⟩ := h t (List.mem_cons_self t ts)
          exact absurd hnil hne
      · rw [if_neg hnil]
        by_cases hbig : 2147483647 < digitsToNat t
        · rw [if_pos hbig]
          constructor
          · intro h
            exact Option.noConfusion h
          · intro h
            obtain ⟨-, -, hle⟩ := h t (List.mem_cons_self t ts)
            omega
        · rw [if_neg hbig]
          dsimp only
          by_cases hle : 255 < (digitsToNat t : Int) ∨ (digitsToNat t : Int) < 0
          · rw [if_pos hle]
            constructor
            · intro h
              exact absurd h (by simp)
            · intro h
              obtain ⟨-, -, h255⟩ := h t (List.mem_cons_self t ts)
              rcases hle with hl | hl <;> omega
          · rw [if_neg hle]
            rw [ih]
            push_neg at hle
            constructor
            · intro h x hx
              rcases List.mem_cons.mp hx with hx | hx
              · subst hx
                exact ⟨hnil, hpint, by omega⟩
              · exact h x hx
            · intro h x hx
              exact h x (List.mem_cons_of_mem t hx)

/-- Acceptance characterisation of the address validator: the wildcard,
or exactly four dot-split tokens, each a nonempty digit-only string of
value at most 255. -/
theorem is_ip_accepts_iff (s : Str) :
    is_ip s = some true ↔
      s = ['*'] ∨ ((parse '.' s).length = 4 ∧
        ∀ t ∈ parse '.' s, t ≠ [] ∧ (∀ c ∈ t, c.isDigit = true) ∧ digitsToNat t ≤ 255) := by
  unfold is_ip
  by_cases hw : s = ['*']
  · simp [hw]
  · rw [if_neg hw]
    simp only [hw, false_or]
    by_cases hlen : (parse '.' s).length ≠ 4
    · rw [if_pos hlen]
      constructor
      · intro h
        exact absurd h (by simp)
      · rintro ⟨h4, -⟩
        exact absurd h4 hlen
    · rw [if_neg hlen]
      push_neg at hlen
      rw [is_ip_loop_true_iff]
      constructor
      · intro h
        exact ⟨hlen, h⟩
      · rintro ⟨-, h⟩
        exact h

/-- After inserting a validated pair, a concrete query equal to the key
hits the exact probe and returns the stored destination. -/
theorem translate_save_kv_hit {dct : Dictionary} {s v a p : Str}
    (hvs : is_valid s false = some true) (hs : parse ':' s = [a, p])
    (ha : a ≠ ['*']) (hp : p ≠ ['*']) :
    translate (save_kv dct s v) s = some (Status.OK, some v) := by
  obtain ⟨a2, p2, hps2, hip, hpt, -, -⟩ := is_valid_true_elim hvs
  rw [hs] at hps2
  obtain ⟨he1, he2⟩ := List.cons_eq_cons.mp hps2
  obtain ⟨he3, -⟩ := List.cons_eq_cons.mp he2
  subst he1
  subst he3
  rw [translate_eq_lookupSpec hs hip hpt ha hp]
  have hsplit : s = a ++ ':' :: p := parse_pair hs
  unfold lookupSpec
  rw [← hsplit, dict_find_save_kv, if_pos rfl]

/-- C1: the claim states that a query text that does not split on ':'
into exactly two parts makes Translate return INVALID with no
destination.  The code omits the field-count check that rule parsing
performs, so a three-field query proceeds to the lookup: on the empty
table it returns NO_MATCH, with a stored address-wildcard rule it even
returns OK with a destination, and a query with no ':' at all reads
parsed[1] out of bounds (undefined behaviour, modelled as `none`). -/
theorem translate_three_field_query_not_invalid :
    translate [] ("1.2.3.4:80:90".toList) = some (Status.NO_MATCH, none) ∧
    translate [("1.2.3.4:*".toList, "5.6.7.8:1".toList)] ("1.2.3.4:80:90".toList) =
      some (Status.OK, some ("5.6.7.8:1".toList)) ∧
    translate [] ("10.0.1.1".toList) = none := by decide

/-- C2: the claim states that every core operation communicates failure
solely through the returned Status and never throws or aborts.  In the
code is_pint accepts the empty string and any over-INT_MAX digit string,
after which std::stoi throws an uncaught exception: DefineRule on a rule
whose source has an empty port, and Translate on a query whose port
numeral exceeds INT_MAX, both abort instead of returning a Status
(modelled as `none`). -/
theorem stoi_exception_escapes_core :
    save [] ("1.2.3.4:,5.6.7.8:80".toList) = none ∧
    translate [] ("1.2.3.4:99999999999999".toList) = none := by decide

/-- C3: for every table and every valid, fully concrete query, translate
equals the spec's ordered three-candidate lookup (exact key address:port
first, then address:*, then *:port, first hit wins), and returns
NO_MATCH exactly when none of the three keys is stored. -/
theorem translate_concrete_query_three_probe (dct : Dictionary) (q a p : Str)
    (hq : parse ':' q = [a, p]) (hip : is_ip a = some true)
    (hpt : is_port p = some true) (ha : a ≠ ['*']) (hp : p ≠ ['*']) :
    q = a ++ ':' :: p ∧
    translate dct q = some (lookupSpec dct a p) ∧
    (translate dct q = some (Status.NO_MATCH, none) ↔
      dict_find dct (a ++ ':' :: p) = none ∧
      dict_find dct (a ++ [':', '*']) = none ∧
      dict_find dct ('*' :: ':' :: p) = none) := by
  have h1 := parse_pair hq
  have h2 : translate dct q = some (lookupSpec dct a p) :=
    translate_eq_lookupSpec hq hip hpt ha hp
  refine ⟨h1, h2, ?_⟩
  rw [h2]
  unfold lookupSpec
  cases e1 : dict_find dct (a ++ ':' :: p) with
  | some v => simp
  | none =>
    dsimp only
    cases e2 : dict_find dct (a ++ [':', '*']) with
    | some v => simp
    | none =>
      dsimp only
      cases e3 : dict_find dct ('*' :: ':' :: p) with
      | some v => simp
      | none => simp

/-- Witness for C3 at a concrete table and query. -/
theorem translate_concrete_query_three_probe_witness :
    ("1.2.3.4:80".toList : Str) = "1.2.3.4".toList ++ ':' :: "80".toList ∧
    translate [("*:80".toList, "9.9.9.9:1".toList)] ("1.2.3.4:80".toList) =
      some (lookupSpec [("*:80".toList, "9.9.9.9:1".toList)]
        ("1.2.3.4".toList) ("80".toList)) ∧
    (translate [("*:80".toList, "9.9.9.9:1".toList)] ("1.2.3.4:80".toList) =
        some (Status.NO_MATCH, none) ↔
      dict_find [("*:80".toList, "9.9.9.9:1".toList)]
        ("1.2.3.4".toList ++ ':' :: "80".toList) = none ∧
      dict_find [("*:80".toList, "9.9.9.9:1".toList)]
        ("1.2.3.4".toList ++ [':', '*']) = none ∧
      dict_find [("*:80".toList, "9.9.9.9:1".toList)]
        ('*' :: ':' :: "80".toList) = none) :=
  translate_concrete_query_three_probe _ _ _ _
    (by decide) (by decide) (by decide) (by decide) (by decide)

/-- C4: the claim states that DefineRule returns OK exactly on a
two-part rule with a valid non-fully-wildcard source and a valid fully
concrete destination, and INVALID in every other case.  A rule whose
source address has an empty octet is such an other case, yet the code
reaches std::stoi on the empty octet and throws instead of returning
INVALID (modelled as `none`). -/
theorem defineRule_empty_octet_throws :
    save [] ("1.2..4:80,5.6.7.8:80".toList) = none := by decide

/-- C5: inserting a valid rule with fully concrete source s and
destination d via DefineRule returns OK, and an immediate Translate of s
returns (OK, d). -/
theorem defineRule_then_translate_roundtrip (dct : Dictionary)
    (rule s d a p : Str) (hr : parse_entry rule = some [s, d])
    (hs : parse ':' s = [a, p]) (ha : a ≠ ['*']) (hp : p ≠ ['*']) :
    save dct rule = some (Status.OK, save_kv dct s d) ∧
    translate (save_kv dct s d) s = some (Status.OK, some d) := by
  refine ⟨save_eq_of_parse_entry hr, ?_⟩
  obtain ⟨hvs, -, -⟩ := parse_entry_pair hr
  exact translate_save_kv_hit hvs hs ha hp

/-- Witness for C5 at a concrete rule. -/
theorem defineRule_then_translate_roundtrip_witness :
    save [] ("1.2.3.4:80,5.6.7.8:90".toList) =
      some (Status.OK, save_kv [] ("1.2.3.4:80".toList) ("5.6.7.8:90".toList)) ∧
    translate (save_kv [] ("1.2.3.4:80".toList) ("5.6.7.8:90".toList))
      ("1.2.3.4:80".toList) = some (Status.OK, some ("5.6.7.8:90".toList)) :=
  defineRule_then_translate_roundtrip [] ("1.2.3.4:80,5.6.7.8:90".toList)
    ("1.2.3.4:80".toList) ("5.6.7.8:90".toList) ("1.2.3.4".toList) ("80".toList)
    (by decide) (by decide) (by decide) (by decide)

/-- C6: the address validator accepts exactly the wildcard or four
dot-separated nonempty digit-only tokens (no sign, no other character)
of value at most 255, and the port validator accepts exactly the
wildcard or a nonempty digit-only token of value at most 65535;
executions that throw inside std::stoi accept nothing. -/
theorem endpoint_field_validator_characterisation (s : Str) :
    (is_ip s = some true ↔
      s = ['*'] ∨ ((parse '.' s).length = 4 ∧
        ∀ t ∈ parse '.' s,
          t ≠ [] ∧ (∀ c ∈ t, c.isDigit = true) ∧ digitsToNat t ≤ 255)) ∧
    (is_port s = some true ↔
      s = ['*'] ∨ (s ≠ [] ∧ (∀ c ∈ s, c.isDigit = true) ∧ digitsToNat s ≤ 65535)) :=
  ⟨is_ip_accepts_iff s, is_port_accepts_iff s⟩

/-- C7: the claim states that every query whose address or port field is
the wildcard marker gets INVALID and no lookup is performed.  That holds
for the spec's own example (first conjunct), but a query whose port
field is the wildcard while an address octet is empty reaches std::stoi
and throws instead of returning INVALID (second conjunct, modelled as
`none`). -/
theorem wildcard_query_with_bad_octet_throws :
    translate [("*:8082".toList, "192.168.0.1:81".toList)] ("*:8082".toList) =
      some (Status.INVALID, none) ∧
    translate [] ("1..2.3:*".toList) = none := by decide

/-- C8 counterexample: two rules share the wildcard source text
"1.2.3.4:*".  After both DefineRule calls the table holds only the
second destination under that key, but Translate on that source text
returns INVALID rather than the second destination, because a query may
not contain a wildcard. -/
theorem overwrite_wildcard_source_query_invalid :
    save [] ("1.2.3.4:*,5.6.7.8:80".toList) =
      some (Status.OK, [("1.2.3.4:*".toList, "5.6.7.8:80".toList)]) ∧
    save [("1.2.3.4:*".toList, "5.6.7.8:80".toList)]
        ("1.2.3.4:*,5.6.7.8:81".toList) =
      some (Status.OK, [("1.2.3.4:*".toList, "5.6.7.8:81".toList)]) ∧
    translate [("1.2.3.4:*".toList, "5.6.7.8:81".toList)] ("1.2.3.4:*".toList) =
      some (Status.INVALID, none) := by decide

/-- C8 amended: defining two valid rules with the same source endpoint
text stores only the second destination under that key (last-write-wins,
keys unique), and when the shared source is fully concrete a subsequent
Translate on it returns the second destination. -/
theorem overwrite_last_write_wins (dct : Dictionary) (r1 r2 s v1 v2 : Str)
    (h1 : parse_entry r1 = some [s, v1]) (h2 : parse_entry r2 = some [s, v2]) :
    save dct r1 = some (Status.OK, save_kv dct s v1) ∧
    save (save_kv dct s v1) r2 =
      some (Status.OK, save_kv (save_kv dct s v1) s v2) ∧
    dict_find (save_kv (save_kv dct s v1) s v2) s = some v2 ∧
    (∀ a p, parse ':' s = [a, p] → a ≠ ['*'] → p ≠ ['*'] →
      translate (save_kv (save_kv dct s v1) s v2) s =
        some (Status.OK, some v2)) := by
  refine ⟨save_eq_of_parse_entry h1, save_eq_of_parse_entry h2, ?_, ?_⟩
  · rw [dict_find_save_kv, if_pos rfl]
  · intro a p hs ha hp
    obtain ⟨hvs, -, -⟩ := parse_entry_pair h2
    exact translate_save_kv_hit hvs hs ha hp

/-- Witness for the amended C8 at two concrete rules sharing a concrete
source. -/
theorem overwrite_last_write_wins_witness :
    save [] ("1.2.3.4:80,5.6.7.8:90".toList) =
      some (Status.OK, save_kv [] ("1.2.3.4:80".toList) ("5.6.7.8:90".toList)) ∧
    save (save_kv [] ("1.2.3.4:80".toList) ("5.6.7.8:90".toList))
        ("1.2.3.4:80,5.6.7.8:91".toList) =
      some (Status.OK, save_kv (save_kv [] ("1.2.3.4:80".toList) ("5.6.7.8:90".toList))
        ("1.2.3.4:80".toList) ("5.6.7.8:91".toList)) ∧
    dict_find (save_kv (save_kv [] ("1.2.3.4:80".toList) ("5.6.7.8:90".toList))
        ("1.2.3.4:80".toList) ("5.6.7.8:91".toList)) ("1.2.3.4:80".toList) =
      some ("5.6.7.8:91".toList) ∧
    (∀ a p, parse ':' ("1.2.3.4:80".toList) = [a, p] → a ≠ ['*'] → p ≠ ['*'] →
      translate (save_kv (save_kv [] ("1.2.3.4:80".toList) ("5.6.7.8:90".toList))
          ("1.2.3.4:80".toList) ("5.6.7.8:91".toList)) ("1.2.3.4:80".toList) =
        some (Status.OK, some ("5.6.7.8:91".toList))) :=
  overwrite_last_write_wins [] _ _ _ _ _ (by decide) (by decide)

/-- C9: every table reachable from the empty table satisfies the
invariant that stored keys validate as non-fully-wildcard endpoints and
stored values as fully concrete endpoints, and a DefineRule call that
returns INVALID leaves the table unchanged. -/
theorem reachable_table_invariant :
    (∀ d : Dictionary, Reachable d → Inv d) ∧
    (∀ (dct : Dictionary) (e : Str) (d' : Dictionary),
      save dct e = some (Status.INVALID, d') → d' = dct) :=
  ⟨reachable_inv, fun _ _ _ h => save_invalid_unchanged h⟩

/-- Witness for C9: the table reached by one successful DefineRule has a
validated key and value. -/
theorem reachable_table_invariant_witness :
    is_valid ("1.2.3.4:80".toList) false = some true ∧
    is_valid ("5.6.7.8:90".toList) true = some true := by
  have h1 : save [] ("1.2.3.4:80,5.6.7.8:90".toList) =
      some (Status.OK, [("1.2.3.4:80".toList, "5.6.7.8:90".toList)]) := by decide
  have h2 : Reachable [("1.2.3.4:80".toList, "5.6.7.8:90".toList)] :=
    Reachable.step Reachable.base h1
  exact reachable_table_invariant.1 _ h2
    ("1.2.3.4:80".toList) ("5.6.7.8:90".toList) (by decide)

/-- C10: numeric tokens with leading zeros pass validation, so the rule
"010.0.0.1:0080,1.2.3.4:80" is accepted, and since keys are compared as
exact text the canonical spelling "10.0.0.1:80" does not find it. -/
theorem leading_zeros_distinct_keys :
    save [] ("010.0.0.1:0080,1.2.3.4:80".toList) =
      some (Status.OK, [("010.0.0.1:0080".toList, "1.2.3.4:80".toList)]) ∧
    translate [("010.0.0.1:0080".toList, "1.2.3.4:80".toList)]
      ("10.0.0.1:80".toList) = some (Status.NO_MATCH, none) := by decide

end SimpleNAT
